import Mathlib

/-!
Verification of `web-scraping-entities-functions/autofill_company_info_to_csv.py`
and `web-scraping-entities-functions/PE_fund_contact_info_gathering.py`.

Texts are modelled as `List Char`.  The Python sentinel string `'-'` is the
one-element list `['-']`.  The external collaborators (the search engine and
the named-entity-recognition service) are modelled as explicit function
arguments (oracles); all other code is translated directly from the source.
-/

namespace Autofill

/-- Python texts, modelled as lists of characters. -/
abbrev Str := List Char

/-- The `'-'` sentinel used throughout the source for "not found". -/
def sentinel : Str := ['-']

/-- Python `\s` on ASCII text: space, tab, newline, carriage return,
vertical tab, form feed. -/
def isPySpace (c : Char) : Bool :=
  c = ' ' || c = '\t' || c = '\n' || c = '\r' || c = '\x0b' || c = '\x0c'

/-- Character class of the local part of the email regex on line 91,
`[A-Za-z0-9._%+-]`. -/
def isLocalChar (c : Char) : Bool :=
  c.isAlphanum || c = '.' || c = '_' || c = '%' || c = '+' || c = '-'

/-- Character class of the domain part of the email regex, `[A-Za-z0-9.-]`. -/
def isDomainChar (c : Char) : Bool :=
  c.isAlphanum || c = '.' || c = '-'

/-- Character class of the top-level segment of the email regex as written in
the source, `[A-Z|a-z]`: ASCII letters and the literal pipe character. -/
def isTldSrc (c : Char) : Bool :=
  c.isAlpha || c = '|'

/-- Top-level-segment class of letters only (no pipe); this is the class the
specification describes ("2+ letter top-level segment"). -/
def isTldLetters (c : Char) : Bool :=
  c.isAlpha

/-- Python regex word characters `\w` on ASCII text, used by `\b`. -/
def isWordChar (c : Char) : Bool :=
  c.isAlphanum || c = '_'

/-- Whether an optional character is a word character; the absent character
(before the start or after the end of the text) counts as a non-word. -/
def isWordOpt : Option Char → Bool
  | none => false
  | some c => isWordChar c

/-- A `\b` word boundary holds between two (optional) characters iff exactly
one of them is a word character. -/
def boundaryB (a b : Option Char) : Bool :=
  isWordOpt a != isWordOpt b

/-- Character class of the phone regex on line 71, `[\d\s()-]`. -/
def isPhoneChar (c : Char) : Bool :=
  c.isDigit || isPySpace c || c = '(' || c = ')' || c = '-'

/-! ### The phone regex `\+?[\d\s()-]{10,20}` (line 71)

`re.findall(...)[0]` is the leftmost match.  At a given position the pattern
matches iff (after an optional leading `+`) at least 10 characters of the
class follow; greediness takes at most 20 of them.  Backtracking over `\+?`
is vacuous because `+` is not in the class. -/

/-- Length of the run of phone-class characters at the head of the text. -/
def phoneRun (cs : Str) : Nat := (cs.takeWhile isPhoneChar).length

/-- Attempt to match the phone pattern at the current position, following
Python's greedy semantics. -/
def phoneMatchAt (cs : Str) : Option Str :=
  match cs with
  | '+' :: rest =>
    if 10 ≤ phoneRun rest then some ('+' :: rest.take (min (phoneRun rest) 20))
    else none
  | _ =>
    if 10 ≤ phoneRun cs then some (cs.take (min (phoneRun cs) 20))
    else none

/-- Leftmost match of the phone pattern (the first element of
`re.findall`). -/
def phoneSearch : Str → Option Str
  | [] => phoneMatchAt []
  | c :: rest =>
    match phoneMatchAt (c :: rest) with
    | some m => some m
    | none => phoneSearch rest

/-- `re.sub(r'\s+', ' ', s)`: collapse each maximal whitespace run into a
single space. -/
def collapseWs : Str → Str
  | [] => []
  | [c] => if isPySpace c then [' '] else [c]
  | c :: d :: rest =>
    if isPySpace c && isPySpace d then collapseWs (d :: rest)
    else (if isPySpace c then ' ' else c) :: collapseWs (d :: rest)

/-- Python `str.strip()` on ASCII text. -/
def pyStrip (cs : Str) : Str :=
  ((cs.dropWhile isPySpace).reverse.dropWhile isPySpace).reverse

/-- `extract_phone_number` (lines 57-73): first match of the phone pattern,
with whitespace collapsed and stripped, else the sentinel. -/
def extract_phone_number (cs : Str) : Str :=
  match phoneSearch cs with
  | some m => pyStrip (collapseWs m)
  | none => sentinel

/-! ### The email regex `\b[A-Za-z0-9._%+-]+@[A-Za-z0-9.-]+\.[A-Z|a-z]{2,}\b`
(lines 90-93)

`re.search` returns the leftmost match.  At a fixed start position the
pattern is matched by backtracking: the local part `L+` is forced to be the
maximal local-class run (a shorter run would be followed by a local-class
character, never `@`); the domain `D+` is tried greedily from its maximal
run downwards, looking for a following literal dot; the top-level part
`T{2,}` is tried greedily from its maximal run down to 2, looking for a
closing word boundary.

The matcher is parameterised by the top-level character class `tldP` and by
whether the two `\b` anchors are checked (`chkB`); the source instantiates
`tldP := isTldSrc` and `chkB := true`.  The parameters let the same
development also express the specification's letters-only shape. -/

/-- Length of the run of `tldP` characters at the head of the text. -/
def tldRun (tldP : Char → Bool) (cs : Str) : Nat := (cs.takeWhile tldP).length

/-- Length of the run of domain-class characters at the head of the text. -/
def domRun (cs : Str) : Nat := (cs.takeWhile isDomainChar).length

/-- Backtracking search for the `T{2,}\b` tail: try consuming `n, n-1, …, 2`
top-level characters of `rest3`, returning the first count whose following
position is a word boundary (when `chkB` is set). -/
def tldTry (chkB : Bool) (rest3 : Str) : Nat → Option Nat
  | 0 => none
  | 1 => none
  | (j+2) =>
    if !chkB || boundaryB rest3[j+1]? rest3[j+2]? then some (j+2)
    else tldTry chkB rest3 (j+1)

/-- Backtracking search for the `D+\.T{2,}\b` tail: try consuming
`n, n-1, …, 1` domain characters of `rest2`, requiring a literal `.` next
(at index `k` after consuming `k` characters) and a successful top-level
match on the remainder.  Returns the consumed text. -/
def domTry (tldP : Char → Bool) (chkB : Bool) (rest2 : Str) : Nat → Option Str
  | 0 => none
  | (k+1) =>
    if rest2[k+1]? = some '.' then
      (match tldTry chkB (rest2.drop (k+2)) (tldRun tldP (rest2.drop (k+2))) with
       | some j => some (rest2.take (k+1) ++ '.' :: (rest2.drop (k+2)).take j)
       | none => domTry tldP chkB rest2 k)
    else domTry tldP chkB rest2 k

/-- Attempt to match the email pattern at the current position.  `prev` is
the character just before this position (`none` at the start of the text),
needed for the leading `\b`. -/
def emailMatchAt (tldP : Char → Bool) (chkB : Bool) (prev : Option Char)
    (cs : Str) : Option Str :=
  let l := cs.takeWhile isLocalChar
  if l.length = 0 then none
  else if chkB && !boundaryB prev cs.head? then none
  else if (cs.drop l.length).head? = some '@' then
    (match domTry tldP chkB (cs.drop (l.length + 1)) (domRun (cs.drop (l.length + 1))) with
     | some tail => some (l ++ '@' :: tail)
     | none => none)
  else none

/-- Leftmost match of the email pattern: try each start position from the
left, threading the previous character for the `\b` anchor. -/
def emailSearchAux (tldP : Char → Bool) (chkB : Bool) :
    Option Char → Str → Option Str
  | prev, cs =>
    match emailMatchAt tldP chkB prev cs with
    | some m => some m
    | none =>
      match cs with
      | [] => none
      | c :: rest => emailSearchAux tldP chkB (some c) rest

/-- `extract_email` (lines 76-94): the first match of
`\b[A-Za-z0-9._%+-]+@[A-Za-z0-9.-]+\.[A-Z|a-z]{2,}\b` in the text, else the
sentinel. -/
def extract_email (cs : Str) : Str :=
  (emailSearchAux isTldSrc true none cs).getD sentinel

/-! ### The entity extractors (lines 12-54)

Amazon Comprehend's `detect_entities` is modelled as an oracle
`N : Str → List Entity` mapping a text to its entity list. -/

/-- One entity of a named-entity-recognition response: its text and its
type tag (`"PERSON"`, `"LOCATION"`, …). -/
structure Entity where
  text : Str
  etype : Str
deriving DecidableEq

/-- `extract_entity` (lines 12-32): first entity of the requested type in the
NER response for the text, else the sentinel. -/
def extract_entity (N : Str → List Entity) (text etype : Str) : Str :=
  match ((N text).filter (fun e => e.etype == etype)).map Entity.text with
  | [] => sentinel
  | t :: _ => t

/-- Python `max(xs, key=len)` over a nonempty list `x :: xs`: fold keeping
the current maximum, replacing it only on a strictly greater length, so ties
keep the earlier element. -/
def pyMaxByLen (x : Str) (xs : List Str) : Str :=
  xs.foldl (fun a b => if a.length < b.length then b else a) x

/-- `extract_full_name` (lines 35-54): longest `PERSON` entity text in the
NER response for the text (`max(person_entities, key=len)`), else the
sentinel. -/
def extract_full_name (N : Str → List Entity) (text : Str) : Str :=
  match ((N text).filter (fun e => e.etype == ("PERSON".toList))).map Entity.text with
  | [] => sentinel
  | x :: xs => pyMaxByLen x xs

/-! ### Search-driven lookups (lines 97-218)

The search engine is modelled as an oracle `S : Str → List SResult` mapping
a query string to its ordered organic results. -/

/-- One normalized search result: page title, snippet, link. -/
structure SResult where
  rtitle : Str
  snippet : Str
  link : Str
deriving DecidableEq

/-- Python string `lower()` on ASCII text. -/
def lowerStr (s : Str) : Str := s.map Char.toLower

/-- `needle.isPrefix`-style check written out: does `hay` start with
`needle`? -/
def startsWith : Str → Str → Bool
  | [], _ => true
  | _ :: _, [] => false
  | a :: as, b :: bs => a == b && startsWith as bs

/-- Python `needle in hay`: contiguous-substring containment. -/
def isSubstr (needle : Str) : Str → Bool
  | [] => startsWith needle []
  | c :: rest => startsWith needle (c :: rest) || isSubstr needle rest

/-- The guard on line 154: the lowercased title occurs in the lowercased
snippet or in the lowercased result title. -/
def qualifies (title : Str) (r : SResult) : Bool :=
  isSubstr (lowerStr title) (lowerStr r.snippet) ||
    isSubstr (lowerStr title) (lowerStr r.rtitle)

/-- `search_linkedin` (lines 97-122): one query
`"{name} {title} {company} site:linkedin.com"`; the first result's link, else
the sentinel. -/
def search_linkedin (S : Str → List SResult) (name company title : Str) : Str :=
  match S (name ++ ' ' :: title ++ ' ' :: company ++ (" site:linkedin.com".toList)) with
  | [] => sentinel
  | r :: _ => r.link

/-- Output of `search_executive_info`: the four returned fields, plus
instrumentation counting the NER calls (`detect_entities`) and the LinkedIn
search calls made while producing them. -/
structure ExecInfo where
  name : Str
  email : Str
  linkedin : Str
  location : Str
  nerCalls : Nat
  linkedinCalls : Nat
deriving DecidableEq

/-- The query built on line 143: `"{title} {company}"`. -/
def execQuery (company title : Str) : Str := title ++ ' ' :: company

/-- The result loop of `search_executive_info` (lines 151-160): for each
result whose snippet or title contains the target title (case-insensitively),
extract a full name from snippet+title; on success take location, email and
LinkedIn from this result and stop; on failure keep scanning.  Each
`extract_full_name`/`extract_entity` call counts one NER call. -/
def execScan (S : Str → List SResult) (N : Str → List Entity)
    (company title : Str) : List SResult → ExecInfo
  | [] => ⟨sentinel, sentinel, sentinel, sentinel, 0, 0⟩
  | r :: rest =>
    if qualifies title r then
      let nm := extract_full_name N (r.snippet ++ ' ' :: r.rtitle)
      if nm == sentinel then
        let o := execScan S N company title rest
        { o with nerCalls := o.nerCalls + 1 }
      else
        ⟨nm, extract_email r.snippet, search_linkedin S nm company title,
          extract_entity N r.snippet ("LOCATION".toList), 2, 1⟩
    else execScan S N company title rest

/-- `search_executive_info` (lines 125-162): issue the `"{title} {company}"`
query and run the result loop. -/
def search_executive_info (S : Str → List SResult) (N : Str → List Entity)
    (company title : Str) : ExecInfo :=
  execScan S N company title (S (execQuery company title))

/-! ### `get_company_info` (lines 165-218) -/

/-- The fixed executive-title vocabulary (line 191). -/
def titles : List Str :=
  [("CFO".toList), ("COO".toList), ("CTO".toList), ("Partner".toList)]

/-- The four title-prefixed entries stored per executive title
(lines 195-199). -/
def execEntries (S : Str → List SResult) (N : Str → List Entity)
    (company t : Str) : List (Str × Str) :=
  let e := search_executive_info S N company t
  [(t ++ (" Name".toList), e.name), (t ++ (" Email".toList), e.email),
   (t ++ (" LinkedIn".toList), e.linkedin), (t ++ (" Location".toList), e.location)]

/-- The company-phone query built on line 204:
`"{company} contact phone number"`. -/
def phoneQuery (company : Str) : Str := company ++ (" contact phone number".toList)

/-- The key `"Company Phone"`. -/
def phoneKey : Str := "Company Phone".toList

/-- The phone loop of `get_company_info` (lines 210-216): scan results in
order, extract a phone number from each snippet, and stop at the first
non-sentinel extraction.  Also counts the extraction attempts made. -/
def phoneScan : List SResult → Str × Nat
  | [] => (sentinel, 0)
  | r :: rest =>
    let p := extract_phone_number r.snippet
    if p == sentinel then
      let q := phoneScan rest
      (q.1, q.2 + 1)
    else (p, 1)

/-- `get_company_info` (lines 165-218): the flat key-value mapping built by
iterating the titles in order and then resolving the company phone. -/
def get_company_info (S : Str → List SResult) (N : Str → List Entity)
    (company : Str) : List (Str × Str) :=
  (titles.flatMap (execEntries S N company)) ++
    [(phoneKey, (phoneScan (S (phoneQuery company))).1)]

/-! ### The CSV merge engine `autofill_csv` (lines 221-252)

A dataset row maps a column name to an optional cell value; `none` models a
missing / NaN cell (`pd.isna`).  Reading the company-name column of a row
that does not have it raises a pandas `KeyError`, modelled by the
`RunError.keyError` outcome.  The per-company lookup `get_company_info` can
raise (network/service errors of its collaborators); it is therefore passed
in as a fallible `fetch` function whose error codes are abstract. -/

/-- A dataset row: column name to optional cell value (`none` = missing/NaN). -/
abbrev Row := Str → Option Str

/-- The fill test on line 247: the cell is NaN/missing, the empty string, or
the sentinel. -/
def fillable (v : Option Str) : Bool :=
  match v with
  | none => true
  | some s => s == ([] : Str) || s == sentinel

/-- Functional update of one cell of a row. -/
def setCell (row : Row) (k : Str) (v : Str) : Row :=
  fun x => if x = k then some v else row x

/-- One iteration of the fill loop (lines 246-248): overwrite the cell at
`k` with `v` only when the current cell passes the fill test. -/
def fillCell (row : Row) (k v : Str) : Row :=
  if fillable (row k) then setCell row k v else row

/-- The fill loop of `autofill_csv` (lines 246-248) over all fetched
key-value pairs. -/
def mergeRow (row : Row) (info : List (Str × Str)) : Row :=
  info.foldl (fun r kv => fillCell r kv.1 kv.2) row

/-- The column read on line 243. -/
def firmKey : Str := "FIRM NAME".toList

/-- How a run of `autofill_csv` can abort: a `KeyError` reading the
company-name column, or an uncaught exception from the per-company lookup. -/
inductive RunError where
  | keyError
  | fetchError (code : Nat)
deriving DecidableEq

/-- The row loop of `autofill_csv` (lines 240-251): read `row['FIRM NAME']`
(KeyError when the column is missing), fetch the company info (any exception
propagates — the loop body has no try/except), merge it into the row, and
continue with the remaining rows.  An error anywhere aborts the whole run. -/
def autofill_csv (fetch : Str → Except Nat (List (Str × Str))) :
    List Row → Except RunError (List Row)
  | [] => .ok []
  | row :: rest =>
    match row firmKey with
    | none => .error .keyError
    | some nm =>
      match fetch nm with
      | .error e => .error (.fetchError e)
      | .ok info =>
        match autofill_csv fetch rest with
        | .error e => .error e
        | .ok rs => .ok (mergeRow row info :: rs)

/-- Whether an `Except` outcome is a success. -/
def isOkB {ε α : Type} : Except ε α → Bool
  | .ok _ => true
  | .error _ => false

/-! ### `gather_pe_contact_info` (PE_fund_contact_info_gathering.py,
lines 37-57)

The per-fund lookup `fetch_contact_info_with_serp` is modelled as a fallible
oracle; the loop body wraps it in try/except, so a failure is recorded and
the remaining funds are still processed. -/

/-- Contact information gathered for one fund
(`fetch_contact_info_with_serp`, lines 14-19). -/
structure ContactInfo where
  emails : List Str
  phones : List Str
  addresses : List Str
  websites : List Str
deriving DecidableEq

/-- The console outcome of one fund's iteration: either its printed contact
information, or the printed error message for the exception caught. -/
inductive GatherOutcome where
  | success (fund : Str) (info : ContactInfo)
  | failure (fund : Str) (code : Nat)
deriving DecidableEq

/-- The fund a gather outcome reports on. -/
def GatherOutcome.fund : GatherOutcome → Str
  | .success f _ => f
  | .failure f _ => f

/-- `gather_pe_contact_info` (lines 37-57): for each fund, try the lookup;
a raised exception is caught and reported with the fund's name, and the loop
continues with the next fund. -/
def gather_pe_contact_info (fetchC : Str → Except Nat ContactInfo) :
    List Str → List GatherOutcome
  | [] => []
  | n :: rest =>
    (match fetchC n with
     | .ok info => .success n info
     | .error e => .failure n e) :: gather_pe_contact_info fetchC rest

/-! ### Specification-side notions

These definitions render the specification's wording declaratively; the
claim theorems compare the source-translated functions above against them. -/

/-- An email-shaped decomposition of the text `cs` at its current position
(`prev` is the character just before), per the specification's wording: a
nonempty local part of local-class characters, `@`, a nonempty domain of
domain-class characters, a dot, and a top-level segment of at least two
`tldP` characters — with a word boundary at each end when `chkB` is set.
The match text is `m` and `rest` is what follows it. -/
def EmailDecomp (tldP : Char → Bool) (chkB : Bool) (prev : Option Char)
    (cs m : Str) : Prop :=
  ∃ l d t rest,
    m = l ++ '@' :: (d ++ '.' :: t) ∧ cs = m ++ rest ∧
    l ≠ [] ∧ (∀ c ∈ l, isLocalChar c = true) ∧
    d ≠ [] ∧ (∀ c ∈ d, isDomainChar c = true) ∧
    2 ≤ t.length ∧ (∀ c ∈ t, tldP c = true) ∧
    (chkB = true → boundaryB prev cs.head? = true) ∧
    (chkB = true → boundaryB t.getLast? rest.head? = true)

/-- The text `cs` splits as `pre ++ suf` and `m` is an email-shaped match at
the start of `suf`. -/
def ShapeSplitAt (tldP : Char → Bool) (chkB : Bool) (cs pre suf m : Str) : Prop :=
  cs = pre ++ suf ∧ EmailDecomp tldP chkB pre.getLast? suf m

/-- The text contains an email-shaped substring. -/
def HasShape (tldP : Char → Bool) (chkB : Bool) (cs : Str) : Prop :=
  ∃ pre suf m, ShapeSplitAt tldP chkB cs pre suf m

/-- `m` is the first email-shaped substring of `cs`: it matches at some
position, and no position strictly to the left admits any match. -/
def FirstShape (tldP : Char → Bool) (chkB : Bool) (cs m : Str) : Prop :=
  ∃ pre suf, ShapeSplitAt tldP chkB cs pre suf m ∧
    ∀ pre2 suf2 m2, cs = pre2 ++ suf2 → pre2.length < pre.length →
      ¬ EmailDecomp tldP chkB pre2.getLast? suf2 m2

/-- The maximal length among a list of strings. -/
def maxLenOf (l : List Str) : Nat :=
  l.foldr (fun s m => max s.length m) 0

/-- The first string of maximal length in the list, if any: the
specification's "longest, ties broken by first-encountered". -/
def firstLongest (l : List Str) : Option Str :=
  l.find? (fun s => s.length == maxLenOf l)

/-- The `PERSON` entity texts of the NER response for a text. -/
def personTexts (N : Str → List Entity) (text : Str) : List Str :=
  ((N text).filter (fun e => e.etype == ("PERSON".toList))).map Entity.text

/-- A search result is title-matching and yields a person name from its
snippet+title text. -/
def namedQualifier (N : Str → List Entity) (title : Str) (r : SResult) : Bool :=
  qualifies title r && !(extract_full_name N (r.snippet ++ ' ' :: r.rtitle) == sentinel)

/-- The first title-matching result whose name extraction succeeds. -/
def firstNamed (N : Str → List Entity) (title : Str)
    (results : List SResult) : Option SResult :=
  results.find? (namedQualifier N title)

/-- The first non-sentinel phone extraction over a result list, per the
specification: skip results whose snippet yields the sentinel, keep the
first that yields a phone, sentinel if all are exhausted. -/
def firstPhoneOf (results : List SResult) : Str :=
  ((results.map (fun r => extract_phone_number r.snippet)).find?
    (fun p => !(p == sentinel))).getD sentinel

/-! ### Concrete fixtures used by witnesses and counterexamples -/

/-- Phone scenario, result 1: snippet with no phone-shaped substring. -/
def phoneR1 : SResult := ⟨("r1".toList), ("no phone here".toList), ("l1".toList)⟩

/-- Phone scenario, result 2: snippet with no phone-shaped substring. -/
def phoneR2 : SResult := ⟨("r2".toList), ("call us".toList), ("l2".toList)⟩

/-- Phone scenario, result 3: snippet containing a phone-shaped substring. -/
def phoneR3 : SResult := ⟨("r3".toList), ("tel: 0123-456-789 x".toList), ("l3".toList)⟩

/-- A search result whose snippet and title do not contain "cfo". -/
def noQualR : SResult := ⟨("news today".toList), ("nothing relevant".toList), ("lnk".toList)⟩

/-- A search oracle returning only the non-qualifying result. -/
def S5 : Str → List SResult := fun _ => [noQualR]

/-- An NER oracle that finds no entities. -/
def N0 : Str → List Entity := fun _ => []

/-- Executive-lookup scenario, result 1: title-matching (snippet contains
"cfo"), but its text yields no person entity. -/
def r1C1 : SResult := ⟨("CFO news".toList), ("the cfo did things".toList), ("lnk1".toList)⟩

/-- Executive-lookup scenario, result 2: title-matching and yielding a
person entity. -/
def r2C1 : SResult := ⟨("Acme CFO".toList), ("CFO John Smith".toList), ("lnk2".toList)⟩

/-- The snippet+title text built from result 2 by the name-extraction step. -/
def nameTextC1 : Str := ("CFO John Smith".toList) ++ ' ' :: ("Acme CFO".toList)

/-- An NER oracle recognising "John Smith" exactly in result 2's
snippet+title text and nothing anywhere else. -/
def NC1 : Str → List Entity := fun txt =>
  if txt = nameTextC1 then [⟨("John Smith".toList), ("PERSON".toList)⟩] else []

/-- A search oracle returning results 1 and 2 (in that order) for every
query. -/
def SC1 : Str → List SResult := fun _ => [r1C1, r2C1]

/-- A row whose column "A" holds the non-empty, non-sentinel value "x". -/
def rowW2 : Row := fun k => if k = ("A".toList) then some ("x".toList) else none

/-- A fetched mapping offering a different value "y" for column "A" and a
value "z" for the empty column "B". -/
def infoW2 : List (Str × Str) :=
  [(("A".toList), ("y".toList)), (("B".toList), ("z".toList))]

/-- A row whose FIRM NAME cell is "A". -/
def rowA : Row := fun k => if k = firmKey then some ("A".toList) else none

/-- A row whose FIRM NAME cell is "B". -/
def rowB : Row := fun k => if k = firmKey then some ("B".toList) else none

/-- A row with no FIRM NAME column. -/
def rowMiss : Row := fun _ => none

/-- A company lookup that raises (exception code 7) on company "A" and
succeeds elsewhere. -/
def fetchBoom : Str → Except Nat (List (Str × Str)) :=
  fun c => if c = ("A".toList) then .error 7 else .ok []

/-- A company lookup that always succeeds with an empty mapping. -/
def fetchNice : Str → Except Nat (List (Str × Str)) := fun _ => .ok []

/-- A fetched mapping holding one phone entry. -/
def infoW8 : List (Str × Str) := [(phoneKey, ("123".toList))]

/-- A company lookup that always succeeds with the phone entry. -/
def fetchW8 : Str → Except Nat (List (Str × Str)) := fun _ => .ok infoW8

/-- A PE-fund contact lookup that raises on fund "F1" and succeeds with
empty contact info elsewhere. -/
def fetchC3 : Str → Except Nat ContactInfo :=
  fun c => if c = ("F1".toList) then .error 3 else .ok ⟨[], [], [], []⟩

/-! ## Helper lemmas -/

theorem maxLenOf_cons (x : Str) (l : List Str) :
    maxLenOf (x :: l) = max x.length (maxLenOf l) := rfl

theorem pyMaxByLen_cons (x b : Str) (bs : List Str) :
    pyMaxByLen x (b :: bs) = pyMaxByLen (if x.length < b.length then b else x) bs := rfl

/-- Python's `max(key=len)` over `x :: xs` is the first element of maximal
length. -/
theorem find?_maxLen_eq_pyMaxByLen (xs : List Str) : ∀ x : Str,
    (x :: xs).find? (fun s => s.length == maxLenOf (x :: xs)) = some (pyMaxByLen x xs) := by
  induction xs with
  | nil =>
    intro x
    have hx : maxLenOf [x] = x.length := by simp [maxLenOf]
    simp [List.find?_cons, hx, pyMaxByLen]
  | cons b bs ih =>
    intro x
    by_cases hlt : x.length < b.length
    · have hM : maxLenOf (x :: b :: bs) = maxLenOf (b :: bs) := by
        have hle : x.length ≤ max b.length (maxLenOf bs) :=
          le_trans (le_of_lt hlt) (Nat.le_max_left _ _)
        simp [maxLenOf_cons, Nat.max_eq_right hle]
      have hpx : (x.length == maxLenOf (x :: b :: bs)) = false := by
        rw [hM]
        have : x.length < maxLenOf (b :: bs) :=
          lt_of_lt_of_le hlt (by rw [maxLenOf_cons]; exact Nat.le_max_left _ _)
        simp [Nat.ne_of_lt this]
      rw [List.find?_cons, hpx, hM, pyMaxByLen_cons, if_pos hlt]
      exact ih b
    · have hble : b.length ≤ x.length := Nat.le_of_not_lt hlt
      have hM : maxLenOf (x :: b :: bs) = maxLenOf (x :: bs) := by
        rw [maxLenOf_cons, maxLenOf_cons, maxLenOf_cons, ← Nat.max_assoc,
          Nat.max_eq_left hble]
      have hxle : x.length ≤ maxLenOf (x :: bs) := by
        rw [maxLenOf_cons]; exact Nat.le_max_left _ _
      rw [pyMaxByLen_cons, if_neg hlt, hM]
      have hbase := ih x
      rw [List.find?_cons] at hbase ⊢
      cases hpx : (x.length == maxLenOf (x :: bs)) with
      | true => rw [hpx] at hbase; exact hbase
      | false =>
        rw [hpx] at hbase
        have hpb : (b.length == maxLenOf (x :: bs)) = false := by
          have hxne : x.length ≠ maxLenOf (x :: bs) := by
            intro he; rw [he] at hpx; simp at hpx
          have : b.length ≠ maxLenOf (x :: bs) := by
            intro he; exact hxne (Nat.le_antisymm hxle (he ▸ hble))
          simp [this]
        rw [List.find?_cons, hpb]
        exact hbase

/-- `phoneScan` keeps the first non-sentinel phone extraction. -/
theorem phoneScan_fst (results : List SResult) :
    (phoneScan results).1 = firstPhoneOf results := by
  induction results with
  | nil => rfl
  | cons r rest ih =>
    rw [phoneScan, firstPhoneOf, List.map_cons, List.find?_cons]
    cases hp : (extract_phone_number r.snippet == sentinel) with
    | true => simpa [firstPhoneOf] using ih
    | false => simp

/-- The executive-result loop returns the all-sentinel record with no NER or
LinkedIn calls when no result is title-matching. -/
theorem execScan_no_qualifier (S : Str → List SResult) (N : Str → List Entity)
    (company title : Str) (results : List SResult)
    (h : ∀ r ∈ results, qualifies title r = false) :
    execScan S N company title results = ⟨sentinel, sentinel, sentinel, sentinel, 0, 0⟩ := by
  induction results with
  | nil => rfl
  | cons r rest ih =>
    have hr : qualifies title r = false := h r (by simp)
    rw [execScan, if_neg (by simp [hr])]
    exact ih (fun x hx => h x (by simp [hx]))

theorem mergeRow_cons (row : Row) (kv : Str × Str) (rest : List (Str × Str)) :
    mergeRow row (kv :: rest) = mergeRow (fillCell row kv.1 kv.2) rest := rfl

/-- `fillCell` leaves every other column unchanged. -/
theorem fillCell_ne (row : Row) (k v x : Str) (hx : x ≠ k) :
    fillCell row k v x = row x := by
  unfold fillCell setCell
  split <;> simp [hx]

/-- The fill loop leaves columns outside the fetched mapping unchanged. -/
theorem mergeRow_not_mem (row : Row) (info : List (Str × Str)) (k : Str)
    (hk : k ∉ info.map Prod.fst) : mergeRow row info k = row k := by
  induction info generalizing row with
  | nil => rfl
  | cons kv rest ih =>
    have hk1 : k ≠ kv.1 := by
      intro he; exact hk (by simp [he])
    have hk2 : k ∉ rest.map Prod.fst := fun hm => hk (by simp [hm])
    rw [mergeRow_cons, ih _ hk2, fillCell_ne _ _ _ _ hk1]

/-- Value of the fill loop at a column of the fetched mapping: overwritten
exactly when the current cell passes the fill test. -/
theorem mergeRow_mem (row : Row) (info : List (Str × Str)) (k v : Str)
    (hnd : (info.map Prod.fst).Nodup) (hmem : (k, v) ∈ info) :
    mergeRow row info k = if fillable (row k) then some v else row k := by
  induction info generalizing row with
  | nil => cases hmem
  | cons kv rest ih =>
    rw [mergeRow_cons]
    rcases List.mem_cons.mp hmem with heq | hmem2
    · have hk : kv.1 = k := by rw [← heq]
      have hv : kv.2 = v := by rw [← heq]
      have hknot : k ∉ rest.map Prod.fst := by
        rw [List.map_cons] at hnd
        exact hk ▸ (List.nodup_cons.mp hnd).1
      rw [mergeRow_not_mem _ _ _ hknot, hk, hv]
      unfold fillCell setCell
      split <;> simp
    · have hnd2 : (rest.map Prod.fst).Nodup := by
        rw [List.map_cons] at hnd
        exact (List.nodup_cons.mp hnd).2
      have hk1 : k ≠ kv.1 := by
        intro he
        have hkin : k ∈ rest.map Prod.fst :=
          List.mem_map.mpr ⟨(k, v), hmem2, rfl⟩
        rw [List.map_cons] at hnd
        exact (List.nodup_cons.mp hnd).1 (he ▸ hkin)
      rw [ih _ hnd2 hmem2, fillCell_ne _ _ _ _ hk1]

/-! ## Claim theorems -/

/-- Claim C10: the phone pattern `\+?[\d\s()-]{10,20}` requires no digit:
on ten consecutive spaces, `extract_phone_number` matches the whitespace-only
run, which collapses and strips to the empty string — a value other than the
sentinel. -/
theorem C10_phone_accepts_no_digit :
    ∃ t : Str, t.all (fun c => !c.isDigit) = true ∧
      extract_phone_number t = [] ∧ extract_phone_number t ≠ sentinel := by
  refine ⟨List.replicate 10 ' ', by decide, by decide, by decide⟩

/-- Claim C6: `get_company_info` scans the company-phone results in order and
keeps the first non-sentinel phone extraction (the sentinel only when all are
exhausted); its `"Company Phone"` entry is exactly that scan's value; and on
the three-result scenario where only the third snippet has a phone-shaped
substring, the scan returns the third's phone after three extraction
attempts. -/
theorem C6_company_phone_first_non_sentinel :
    (∀ results : List SResult, (phoneScan results).1 = firstPhoneOf results) ∧
    (∀ (S : Str → List SResult) (N : Str → List Entity) (company : Str),
      List.lookup phoneKey (get_company_info S N company) =
        some ((phoneScan (S (phoneQuery company))).1)) ∧
    phoneScan [phoneR1, phoneR2, phoneR3] = (("0123-456-789".toList), 3) := by
  refine ⟨phoneScan_fst, ?_, by decide⟩
  intro S N company
  rfl

/-- Claim C7: `extract_full_name` returns the longest PERSON entity text,
ties broken in favour of the first-encountered entity, and the sentinel when
there is no PERSON entity: it equals the first maximal-length element of the
PERSON texts when they exist, else the sentinel. -/
theorem C7_longest_person_name (N : Str → List Entity) (text : Str) :
    extract_full_name N text = (firstLongest (personTexts N text)).getD sentinel := by
  have hdef : extract_full_name N text =
      (match personTexts N text with
       | [] => sentinel
       | x :: xs => pyMaxByLen x xs) := rfl
  rw [hdef]
  cases hps : personTexts N text with
  | nil => simp [firstLongest]
  | cons x xs => simp [firstLongest, find?_maxLen_eq_pyMaxByLen]

/-- Claim C5: when no search result's snippet or title contains the target
title, `search_executive_info` returns the all-sentinel record having made
zero NER calls and zero LinkedIn search calls. -/
theorem C5_no_qualifier_zero_calls (S : Str → List SResult)
    (N : Str → List Entity) (company title : Str)
    (h : ∀ r ∈ S (execQuery company title), qualifies title r = false) :
    search_executive_info S N company title =
      ⟨sentinel, sentinel, sentinel, sentinel, 0, 0⟩ :=
  execScan_no_qualifier S N company title _ h

/-- Witness for C5 at a concrete non-matching result list. -/
theorem C5_witness :
    search_executive_info S5 N0 ("Acme".toList) ("CFO".toList) =
      ⟨sentinel, sentinel, sentinel, sentinel, 0, 0⟩ :=
  C5_no_qualifier_zero_calls S5 N0 ("Acme".toList) ("CFO".toList) (by decide)

/-- Claim C2: the merge engine overwrites a cell at a fetched key iff the
current cell is missing/NaN, empty, or the sentinel (taking the fetched
value), and leaves every column outside the fetched mapping unchanged. -/
theorem C2_fill_policy (row : Row) (info : List (Str × Str)) (k v : Str)
    (hnd : (info.map Prod.fst).Nodup) (hmem : (k, v) ∈ info) :
    mergeRow row info k = (if fillable (row k) then some v else row k) ∧
    ∀ k2, k2 ∉ info.map Prod.fst → mergeRow row info k2 = row k2 :=
  ⟨mergeRow_mem row info k v hnd hmem,
   fun k2 h2 => mergeRow_not_mem row info k2 h2⟩

/-- Witness for C2: a cell already holding the non-empty, non-sentinel "x"
is not altered by a fetched mapping offering "y" for it. -/
theorem C2_witness : mergeRow rowW2 infoW2 ("A".toList) = some ("x".toList) := by
  have h := (C2_fill_policy rowW2 infoW2 ("A".toList) ("y".toList)
    (by decide) (by decide)).1
  rw [h]
  decide

/-- When no title-matching result yields a name, the executive-result loop
leaves all four fields at the sentinel. -/
theorem execScan_none (S : Str → List SResult) (N : Str → List Entity)
    (company title : Str) (results : List SResult)
    (h : firstNamed N title results = none) :
    (execScan S N company title results).name = sentinel ∧
    (execScan S N company title results).email = sentinel ∧
    (execScan S N company title results).linkedin = sentinel ∧
    (execScan S N company title results).location = sentinel := by
  induction results with
  | nil => exact ⟨rfl, rfl, rfl, rfl⟩
  | cons r rest ih =>
    rw [firstNamed, List.find?_cons] at h
    cases hq : namedQualifier N title r with
    | true => rw [hq] at h; cases h
    | false =>
      rw [hq] at h
      have ih2 := ih h
      rw [execScan]
      cases hqual : qualifies title r with
      | false => simpa [hqual] using ih2
      | true =>
        have hnm : (extract_full_name N (r.snippet ++ ' ' :: r.rtitle) == sentinel) = true := by
          rw [namedQualifier, hqual] at hq
          simpa using hq
        simpa [hqual, hnm] using ih2

/-- When some title-matching result yields a name, the executive-result loop
takes all four fields from the first such result. -/
theorem execScan_some (S : Str → List SResult) (N : Str → List Entity)
    (company title : Str) (results : List SResult) (r : SResult)
    (h : firstNamed N title results = some r) :
    (execScan S N company title results).name =
      extract_full_name N (r.snippet ++ ' ' :: r.rtitle) ∧
    (execScan S N company title results).email = extract_email r.snippet ∧
    (execScan S N company title results).linkedin =
      search_linkedin S (extract_full_name N (r.snippet ++ ' ' :: r.rtitle)) company title ∧
    (execScan S N company title results).location =
      extract_entity N r.snippet ("LOCATION".toList) := by
  induction results with
  | nil => cases h
  | cons rr rest ih =>
    rw [firstNamed, List.find?_cons] at h
    cases hq : namedQualifier N title rr with
    | true =>
      rw [hq] at h
      have hrr : rr = r := Option.some.inj h
      have hq2 : namedQualifier N title r = true := hrr ▸ hq
      simp only [namedQualifier, Bool.and_eq_true] at hq2
      obtain ⟨hqual, hnm⟩ := hq2
      have hnm2 : ¬(extract_full_name N (r.snippet ++ ' ' :: r.rtitle) = sentinel) := by
        simpa using hnm
      rw [execScan, hrr]
      simp [hqual, hnm2]
    | false =>
      rw [hq] at h
      have ih2 := ih (by rw [firstNamed]; exact h)
      rw [execScan]
      cases hqual : qualifies title rr with
      | false => simpa [hqual] using ih2
      | true =>
        have hnm : extract_full_name N (rr.snippet ++ ' ' :: rr.rtitle) = sentinel := by
          rw [namedQualifier, hqual] at hq
          simpa using hq
        simpa [hqual, hnm] using ih2

/-- Counterexample to claim C1: in the two-result run below, the first
title-matching result (`r1C1`, the head of the list) fails to yield a person
name, yet `search_executive_info` continues scanning, finds the name on the
second result, and returns a record that is not all-sentinel. -/
theorem C1_counterexample :
    qualifies ("CFO".toList) r1C1 = true ∧
    extract_full_name NC1 (r1C1.snippet ++ ' ' :: r1C1.rtitle) = sentinel ∧
    (search_executive_info SC1 NC1 ("Acme".toList) ("CFO".toList)).name =
      ("John Smith".toList) ∧
    (search_executive_info SC1 NC1 ("Acme".toList) ("CFO".toList)).name ≠ sentinel := by
  refine ⟨by decide, by decide, by decide, by decide⟩

/-- Claim C1 as amended: `search_executive_info` evaluates every
title-matching result in order until one yields a person name; the four
fields come from the first such result, and only when no title-matching
result yields a name is the record all-sentinel. -/
theorem C1_amended_scan_continues (S : Str → List SResult)
    (N : Str → List Entity) (company title : Str) :
    (firstNamed N title (S (execQuery company title)) = none →
      (search_executive_info S N company title).name = sentinel ∧
      (search_executive_info S N company title).email = sentinel ∧
      (search_executive_info S N company title).linkedin = sentinel ∧
      (search_executive_info S N company title).location = sentinel) ∧
    ∀ r, firstNamed N title (S (execQuery company title)) = some r →
      (search_executive_info S N company title).name =
        extract_full_name N (r.snippet ++ ' ' :: r.rtitle) ∧
      (search_executive_info S N company title).email = extract_email r.snippet ∧
      (search_executive_info S N company title).linkedin =
        search_linkedin S (extract_full_name N (r.snippet ++ ' ' :: r.rtitle)) company title ∧
      (search_executive_info S N company title).location =
        extract_entity N r.snippet ("LOCATION".toList) :=
  ⟨fun h => execScan_none S N company title _ h,
   fun r h => execScan_some S N company title _ r h⟩

/-- Witness for the amended C1 at the concrete two-result run. -/
theorem C1_witness :
    (search_executive_info SC1 NC1 ("Acme".toList) ("CFO".toList)).email =
      extract_email (("CFO John Smith".toList)) := by
  have h := (C1_amended_scan_continues SC1 NC1 ("Acme".toList) ("CFO".toList)).2
    r2C1 (by decide)
  exact h.2.1

/-- Evaluation of one `autofill_csv` step when the row's company-name column
is missing. -/
theorem autofill_cons_none (fetch : Str → Except Nat (List (Str × Str)))
    (r : Row) (rest : List Row) (hk : r firmKey = none) :
    autofill_csv fetch (r :: rest) = .error .keyError := by
  simp only [autofill_csv, hk]

/-- Evaluation of one `autofill_csv` step when the lookup raises. -/
theorem autofill_cons_fetch_err (fetch : Str → Except Nat (List (Str × Str)))
    (r : Row) (rest : List Row) (nm : Str) (e : Nat)
    (hk : r firmKey = some nm) (hf : fetch nm = .error e) :
    autofill_csv fetch (r :: rest) = .error (.fetchError e) := by
  simp only [autofill_csv, hk, hf]

/-- Evaluation of one `autofill_csv` step when the remaining rows abort. -/
theorem autofill_cons_rec_err (fetch : Str → Except Nat (List (Str × Str)))
    (r : Row) (rest : List Row) (nm : Str) (info : List (Str × Str)) (e : RunError)
    (hk : r firmKey = some nm) (hf : fetch nm = .ok info)
    (hr : autofill_csv fetch rest = .error e) :
    autofill_csv fetch (r :: rest) = .error e := by
  simp only [autofill_csv, hk, hf, hr]

/-- Evaluation of one successful `autofill_csv` step. -/
theorem autofill_cons_ok (fetch : Str → Except Nat (List (Str × Str)))
    (r : Row) (rest : List Row) (nm : Str) (info : List (Str × Str)) (rs : List Row)
    (hk : r firmKey = some nm) (hf : fetch nm = .ok info)
    (hr : autofill_csv fetch rest = .ok rs) :
    autofill_csv fetch (r :: rest) = .ok (mergeRow r info :: rs) := by
  simp only [autofill_csv, hk, hf, hr]

/-- A successful `autofill_csv` run requires every row's company-name lookup
to have succeeded: the loop body has no try/except, so any failure aborts the
run instead of completing with partial results. -/
theorem autofill_ok_all_lookups (fetch : Str → Except Nat (List (Str × Str)))
    (rows : List Row) (out : List Row)
    (h : autofill_csv fetch rows = .ok out) :
    ∀ row ∈ rows, ∃ nm info, row firmKey = some nm ∧ fetch nm = .ok info := by
  induction rows generalizing out with
  | nil => intro row hr; cases hr
  | cons r rest ih =>
    intro row hrow
    cases hk : r firmKey with
    | none => rw [autofill_cons_none fetch r rest hk] at h; cases h
    | some nm =>
      cases hf : fetch nm with
      | error e => rw [autofill_cons_fetch_err fetch r rest nm e hk hf] at h; cases h
      | ok info =>
        cases hrec : autofill_csv fetch rest with
        | error e => rw [autofill_cons_rec_err fetch r rest nm info e hk hf hrec] at h; cases h
        | ok rs =>
          rcases List.mem_cons.mp hrow with heq | hmem
          · exact ⟨nm, info, heq ▸ hk, hf⟩
          · exact ih rs hrec row hmem

/-- A row without the company-name column makes the whole run abort. -/
theorem autofill_missing_firm_error (fetch : Str → Except Nat (List (Str × Str)))
    (rows : List Row) (h : ∃ row ∈ rows, row firmKey = none) :
    ∃ e, autofill_csv fetch rows = .error e := by
  induction rows with
  | nil => rcases h with ⟨row, hmem, _⟩; cases hmem
  | cons r rest ih =>
    cases hk : r firmKey with
    | none => exact ⟨.keyError, autofill_cons_none fetch r rest hk⟩
    | some nm =>
      have h2 : ∃ row ∈ rest, row firmKey = none := by
        rcases h with ⟨row, hmem, hnone⟩
        rcases List.mem_cons.mp hmem with heq | hmem2
        · rw [heq, hk] at hnone; cases hnone
        · exact ⟨row, hmem2, hnone⟩
      rcases ih h2 with ⟨e, he⟩
      cases hf : fetch nm with
      | error e2 =>
        exact ⟨.fetchError e2, autofill_cons_fetch_err fetch r rest nm e2 hk hf⟩
      | ok info =>
        exact ⟨e, autofill_cons_rec_err fetch r rest nm info e hk hf he⟩

/-- `gather_pe_contact_info` produces one outcome per fund, in order,
regardless of which lookups raise. -/
theorem gather_covers_all_funds (fetchC : Str → Except Nat ContactInfo)
    (names : List Str) :
    (gather_pe_contact_info fetchC names).map GatherOutcome.fund = names := by
  induction names with
  | nil => rfl
  | cons n rest ih =>
    rw [gather_pe_contact_info, List.map_cons, ih]
    cases fetchC n <;> rfl

/-- Counterexample to claim C3: in the CSV merge pass, an exception raised by
the lookup of the first organization is not caught — the run aborts with that
error and never completes with partial results. -/
theorem C3_counterexample :
    autofill_csv fetchBoom [rowA, rowB] = .error (.fetchError 7) ∧
    isOkB (autofill_csv fetchBoom [rowA, rowB]) = false :=
  ⟨rfl, rfl⟩

/-- Claim C3 as amended: in `autofill_csv` any exception during an
organization's lookup propagates and aborts the run (a successful run means
every lookup succeeded); the catch-log-continue behaviour exists only in
`gather_pe_contact_info`, which reports an outcome for every fund even when
some lookups raise. -/
theorem C3_amended_no_catch_in_merge :
    (∀ (fetch : Str → Except Nat (List (Str × Str))) (rows out : List Row),
      autofill_csv fetch rows = .ok out →
      ∀ row ∈ rows, ∃ nm info, row firmKey = some nm ∧ fetch nm = .ok info) ∧
    (∀ (fetchC : Str → Except Nat ContactInfo) (names : List Str),
      (gather_pe_contact_info fetchC names).map GatherOutcome.fund = names) :=
  ⟨autofill_ok_all_lookups, gather_covers_all_funds⟩

/-- Witness for the amended C3 at a concrete successful one-row run. -/
theorem C3_witness :
    ∃ nm info, rowA firmKey = some nm ∧ fetchNice nm = .ok info :=
  (C3_amended_no_catch_in_merge).1 fetchNice [rowA] [mergeRow rowA []] rfl
    rowA (by simp)

/-- Counterexample to claim C4: a row whose FIRM NAME column is missing is
not skipped — the read raises a KeyError which aborts the whole run, and the
following row is never processed. -/
theorem C4_counterexample :
    autofill_csv fetchNice [rowMiss, rowB] = .error .keyError ∧
    isOkB (autofill_csv fetchNice [rowMiss, rowB]) = false :=
  ⟨rfl, rfl⟩

/-- Claim C4 as amended: whenever some input row lacks the company-name
column, `autofill_csv` aborts with an error instead of skipping the row. -/
theorem C4_amended_missing_column_aborts
    (fetch : Str → Except Nat (List (Str × Str))) (rows : List Row)
    (h : ∃ row ∈ rows, row firmKey = none) :
    ∃ e, autofill_csv fetch rows = .error e :=
  autofill_missing_firm_error fetch rows h

/-- Witness for the amended C4 at the concrete two-row run. -/
theorem C4_witness : ∃ e, autofill_csv fetchNice [rowMiss, rowB] = .error e :=
  C4_amended_missing_column_aborts fetchNice [rowMiss, rowB]
    ⟨rowMiss, by simp, rfl⟩

/-- The fill loop is idempotent on each row (for a fetched mapping with
distinct keys). -/
theorem mergeRow_idem (row : Row) (info : List (Str × Str))
    (hnd : (info.map Prod.fst).Nodup) :
    mergeRow (mergeRow row info) info = mergeRow row info := by
  funext k
  by_cases hk : k ∈ info.map Prod.fst
  · rcases List.mem_map.mp hk with ⟨kv, hkv, hfst⟩
    have hmem : (k, kv.2) ∈ info := by
      have : kv = (k, kv.2) := by
        rcases kv with ⟨a, b⟩
        simp at hfst
        rw [hfst]
      rw [← this]
      exact hkv
    rw [mergeRow_mem _ _ _ _ hnd hmem, mergeRow_mem _ _ _ _ hnd hmem]
    by_cases hf : fillable (row k) = true
    · rw [if_pos hf]
      split <;> rfl
    · rw [if_neg hf, if_neg hf]
  · rw [mergeRow_not_mem _ _ _ hk, mergeRow_not_mem _ _ _ hk]

/-- Claim C8: with deterministic collaborators (a fixed fetch function whose
successful mappings have distinct keys and never touch the company-name
column), a second `autofill_csv` run on the first run's output reproduces
that output unchanged. -/
theorem C8_merge_idempotent (fetch : Str → Except Nat (List (Str × Str)))
    (hwf : ∀ c info, fetch c = .ok info →
      (info.map Prod.fst).Nodup ∧ firmKey ∉ info.map Prod.fst)
    (rows out : List Row) (h : autofill_csv fetch rows = .ok out) :
    autofill_csv fetch out = .ok out := by
  induction rows generalizing out with
  | nil =>
    rw [autofill_csv] at h
    cases h
    rfl
  | cons r rest ih =>
    cases hk : r firmKey with
    | none => rw [autofill_cons_none fetch r rest hk] at h; cases h
    | some nm =>
      cases hf : fetch nm with
      | error e => rw [autofill_cons_fetch_err fetch r rest nm e hk hf] at h; cases h
      | ok info =>
        cases hrec : autofill_csv fetch rest with
        | error e => rw [autofill_cons_rec_err fetch r rest nm info e hk hf hrec] at h; cases h
        | ok rs =>
          rw [autofill_cons_ok fetch r rest nm info rs hk hf hrec] at h
          cases h
          have h1 : (mergeRow r info) firmKey = some nm := by
            rw [mergeRow_not_mem _ _ _ (hwf nm info hf).2]
            exact hk
          calc autofill_csv fetch (mergeRow r info :: rs)
              = .ok (mergeRow (mergeRow r info) info :: rs) :=
                autofill_cons_ok fetch (mergeRow r info) rs nm info rs h1 hf (ih rs hrec)
            _ = .ok (mergeRow r info :: rs) := by
                rw [mergeRow_idem _ _ (hwf nm info hf).1]

/-- Witness for C8 at a concrete one-row run. -/
theorem C8_witness :
    autofill_csv fetchW8 [mergeRow rowA infoW8] = .ok [mergeRow rowA infoW8] := by
  refine C8_merge_idempotent fetchW8 ?_ [rowA] [mergeRow rowA infoW8] rfl
  intro c info h
  cases h
  exact ⟨by decide, by decide⟩

/-! ## List helpers for the email-matcher development -/

theorem takeWhile_length_take (p : Char → Bool) :
    ∀ cs : Str, cs.take ((cs.takeWhile p).length) = cs.takeWhile p
  | [] => rfl
  | x :: xs => by
    cases hx : p x with
    | false => simp [List.takeWhile_cons, hx]
    | true => simp [List.takeWhile_cons, hx, takeWhile_length_take p xs]

theorem mem_take_run (p : Char → Bool) :
    ∀ (cs : Str) (k : Nat), k ≤ (cs.takeWhile p).length →
      ∀ c ∈ cs.take k, p c = true
  | _, 0 => by simp
  | [], _ + 1 => by simp
  | x :: xs, k + 1 => by
    intro hk c hc
    cases hx : p x with
    | false => simp [List.takeWhile_cons, hx] at hk
    | true =>
      rw [List.takeWhile_cons, hx] at hk
      simp only [if_true] at hk
      rw [List.take_succ_cons] at hc
      rcases List.mem_cons.mp hc with heq | hmem
      · rw [heq]; exact hx
      · exact mem_take_run p xs k (by simpa using hk) c hmem

theorem run_le_of_prefix_all (p : Char → Bool) (l r : Str)
    (h : ∀ c ∈ l, p c = true) :
    l.length ≤ ((l ++ r).takeWhile p).length := by
  rw [List.takeWhile_append_of_pos h]
  simp

theorem takeWhile_prefix_all (p : Char → Bool) (l : Str) (c0 : Char) (r : Str)
    (h : ∀ c ∈ l, p c = true) (hc : p c0 = false) :
    (l ++ c0 :: r).takeWhile p = l := by
  rw [List.takeWhile_append_of_pos h, List.takeWhile_cons, hc]
  simp

theorem getLast?_take_eq (l : Str) (j : Nat) (h1 : 1 ≤ j) (h2 : j ≤ l.length) :
    (l.take j).getLast? = l[j-1]? := by
  rw [List.getLast?_take, if_neg (by omega),
    List.getElem?_eq_getElem (show j - 1 < l.length by omega), Option.or_some]

theorem cons_of_headq (ls : Str) (a : Char) (h : ls.head? = some a) :
    ls = a :: ls.tail := by
  cases ls with
  | nil => cases h
  | cons x xs => cases h; rfl

/-! ## Soundness and completeness of the backtracking email matcher -/

/-- Soundness of the top-level backtracking: a returned count is in range and
satisfies the closing-boundary condition. -/
theorem tldTry_some (chkB : Bool) (rest3 : Str) : ∀ n j : Nat,
    tldTry chkB rest3 n = some j →
    2 ≤ j ∧ j ≤ n ∧ (chkB = true → boundaryB rest3[j-1]? rest3[j]? = true)
  | 0, j => by intro h; simp [tldTry] at h
  | 1, j => by intro h; simp [tldTry] at h
  | (n+2), j => by
    intro h
    rw [tldTry] at h
    by_cases hb : (!chkB || boundaryB rest3[n+1]? rest3[n+2]?) = true
    · rw [if_pos hb] at h
      have hj : n + 2 = j := Option.some.inj h
      subst hj
      refine ⟨by omega, by omega, ?_⟩
      intro hc
      rw [hc] at hb
      simpa using hb
    · rw [if_neg hb] at h
      have h2 := tldTry_some chkB rest3 (n+1) j h
      exact ⟨h2.1, by omega, h2.2.2⟩

/-- Completeness of the top-level backtracking: a `none` answer means every
in-range count fails the closing-boundary condition. -/
theorem tldTry_none (chkB : Bool) (rest3 : Str) : ∀ n : Nat,
    tldTry chkB rest3 n = none →
    ∀ j, 2 ≤ j → j ≤ n → (!chkB || boundaryB rest3[j-1]? rest3[j]?) = false
  | 0 => by intro h j h2 hj; omega
  | 1 => by intro h j h2 hj; omega
  | (n+2) => by
    intro h j h2 hj
    rw [tldTry] at h
    by_cases hb : (!chkB || boundaryB rest3[n+1]? rest3[n+2]?) = true
    · rw [if_pos hb] at h; cases h
    · rw [if_neg hb] at h
      by_cases hjn : j = n + 2
      · subst hjn
        rw [Bool.not_eq_true] at hb
        simpa using hb
      · exact tldTry_none chkB rest3 (n+1) h j h2 (by omega)

/-- Soundness of the domain backtracking: a returned text decomposes into
`k` consumed characters, the literal dot at index `k`, and a successful
top-level match on the remainder. -/
theorem domTry_some (tldP : Char → Bool) (chkB : Bool) (rest2 : Str) :
    ∀ (n : Nat) (out : Str), domTry tldP chkB rest2 n = some out →
    ∃ k j, 1 ≤ k ∧ k ≤ n ∧ rest2[k]? = some '.' ∧
      tldTry chkB (rest2.drop (k+1)) (tldRun tldP (rest2.drop (k+1))) = some j ∧
      out = rest2.take k ++ '.' :: (rest2.drop (k+1)).take j
  | 0, out => by intro h; simp [domTry] at h
  | (n+1), out => by
    intro h
    rw [domTry] at h
    by_cases hdot : rest2[n+1]? = some '.'
    · rw [if_pos hdot] at h
      cases ht : tldTry chkB (rest2.drop (n+2)) (tldRun tldP (rest2.drop (n+2))) with
      | some j =>
        rw [ht] at h
        have hout : rest2.take (n+1) ++ '.' :: (rest2.drop (n+2)).take j = out :=
          Option.some.inj h
        exact ⟨n+1, j, by omega, by omega, hdot, ht, hout.symm⟩
      | none =>
        rw [ht] at h
        obtain ⟨k, j, h1, h2, h3, h4, h5⟩ := domTry_some tldP chkB rest2 n out h
        exact ⟨k, j, h1, by omega, h3, h4, h5⟩
    · rw [if_neg hdot] at h
      obtain ⟨k, j, h1, h2, h3, h4, h5⟩ := domTry_some tldP chkB rest2 n out h
      exact ⟨k, j, h1, by omega, h3, h4, h5⟩

/-- Completeness of the domain backtracking: a `none` answer means every
in-range dot position has a failing top-level match. -/
theorem domTry_none (tldP : Char → Bool) (chkB : Bool) (rest2 : Str) :
    ∀ n : Nat, domTry tldP chkB rest2 n = none →
    ∀ k, 1 ≤ k → k ≤ n → rest2[k]? = some '.' →
      tldTry chkB (rest2.drop (k+1)) (tldRun tldP (rest2.drop (k+1))) = none
  | 0 => by intro h k h1 h2 hdot; omega
  | (n+1) => by
    intro h k h1 h2 hdot
    rw [domTry] at h
    by_cases hk : k = n + 1
    · subst hk
      rw [if_pos hdot] at h
      cases ht : tldTry chkB (rest2.drop (n+2)) (tldRun tldP (rest2.drop (n+2))) with
      | some j =>
        rw [ht] at h
        exact absurd
          (show (some (rest2.take (n+1) ++ '.' :: (rest2.drop (n+2)).take j) : Option Str)
            = none from h) (by simp)
      | none => rfl
    · have h3 : domTry tldP chkB rest2 n = none := by
        by_cases hdot2 : rest2[n+1]? = some '.'
        · rw [if_pos hdot2] at h
          cases ht : tldTry chkB (rest2.drop (n+2)) (tldRun tldP (rest2.drop (n+2))) with
          | some j =>
            rw [ht] at h
            exact absurd
              (show (some (rest2.take (n+1) ++ '.' :: (rest2.drop (n+2)).take j) : Option Str)
                = none from h) (by simp)
          | none => rw [ht] at h; exact h
        · rw [if_neg hdot2] at h; exact h
      exact domTry_none tldP chkB rest2 n h3 k h1 (by omega) hdot

/-- Soundness of the position matcher: a returned text is an email-shaped
decomposition at this position. -/
theorem emailMatchAt_some (tldP : Char → Bool) (chkB : Bool) (prev : Option Char)
    (cs m : Str) (h : emailMatchAt tldP chkB prev cs = some m) :
    EmailDecomp tldP chkB prev cs m := by
  simp only [emailMatchAt] at h
  set L := cs.takeWhile isLocalChar with hL
  by_cases h0 : L.length = 0
  · rw [if_pos h0] at h; cases h
  rw [if_neg h0] at h
  by_cases hb : (chkB && !boundaryB prev cs.head?) = true
  · rw [if_pos hb] at h; cases h
  rw [if_neg hb] at h
  by_cases hat : (cs.drop L.length).head? = some '@'
  case neg => rw [if_neg hat] at h; cases h
  rw [if_pos hat] at h
  set R2 := cs.drop (L.length + 1) with hR2
  cases ht : domTry tldP chkB R2 (domRun R2) with
  | none =>
    rw [ht] at h
    exact Option.noConfusion (show (none : Option Str) = some m from h)
  | some tail =>
    rw [ht] at h
    have hm : L ++ '@' :: tail = m := Option.some.inj h
    subst hm
    obtain ⟨k, j, hk1, hkn, hdot, htld, hout⟩ := domTry_some tldP chkB R2 _ tail ht
    subst hout
    obtain ⟨hj2, hjle, hjbound⟩ := tldTry_some chkB (R2.drop (k+1)) _ j htld
    obtain ⟨hklt, hkval⟩ := List.getElem?_eq_some_iff.mp hdot
    have hjlen : j ≤ (R2.drop (k+1)).length :=
      le_trans hjle ((List.takeWhile_prefix _).length_le)
    have hcs1 : cs = L ++ cs.drop L.length := by
      conv_lhs => rw [← List.take_append_drop L.length cs]
      rw [hL, takeWhile_length_take]
    have hdropL : cs.drop L.length = '@' :: R2 := by
      have h1 := cons_of_headq _ _ hat
      rw [h1, List.tail_drop]
    have hcs2 : cs = L ++ '@' :: R2 := by rw [hcs1, hdropL]
    have hR2split : R2 = R2.take k ++ '.' :: R2.drop (k+1) := by
      conv_lhs => rw [← List.take_append_drop k R2]
      congr 1
      rw [List.drop_eq_getElem_cons hklt, hkval]
    refine ⟨L, R2.take k, (R2.drop (k+1)).take j, (R2.drop (k+1)).drop j,
      rfl, ?_, ?_, ?_, ?_, ?_, ?_, ?_, ?_, ?_⟩
    · have hassoc : (R2.take k ++ '.' :: (R2.drop (k+1)).take j) ++ (R2.drop (k+1)).drop j
          = R2.take k ++ '.' :: R2.drop (k+1) := by
        rw [List.append_assoc, List.cons_append, List.take_append_drop]
      rw [hcs2, List.append_assoc, List.cons_append, hassoc, ← hR2split]
    · exact fun he => h0 (by rw [he]; rfl)
    · intro c hc
      rw [hL] at hc
      exact List.mem_takeWhile_imp hc
    · intro he
      have h5 := congrArg List.length he
      rw [List.length_take, Nat.min_eq_left hklt.le] at h5
      simp at h5
      omega
    · exact mem_take_run isDomainChar R2 k hkn
    · rw [List.length_take, Nat.min_eq_left hjlen]
      exact hj2
    · exact mem_take_run tldP (R2.drop (k+1)) j hjle
    · intro hc
      cases hbb : boundaryB prev cs.head? with
      | true => rfl
      | false =>
        exfalso
        apply hb
        rw [hc, hbb]
        rfl
    · intro hc
      have hB := hjbound hc
      rw [getLast?_take_eq _ j (by omega) hjlen, List.head?_drop]
      exact hB

/-- Completeness of the position matcher: where an email-shaped decomposition
exists, the matcher does not fail. -/
theorem emailMatchAt_complete (tldP : Char → Bool) (chkB : Bool)
    (prev : Option Char) (cs m : Str) (hd : EmailDecomp tldP chkB prev cs m) :
    emailMatchAt tldP chkB prev cs ≠ none := by
  obtain ⟨l, d, t, rest, hm, hcs, hl, hlall, hdne, hdall, ht2, htall, hbS, hbE⟩ := hd
  have hcs2 : cs = l ++ '@' :: (d ++ '.' :: (t ++ rest)) := by
    rw [hcs, hm]
    simp [List.append_assoc]
  have htw : cs.takeWhile isLocalChar = l := by
    rw [hcs2]
    exact takeWhile_prefix_all _ _ _ _ hlall (by decide)
  have hlen0 : ¬((cs.takeWhile isLocalChar).length = 0) := by
    rw [htw]
    simpa using hl
  have hguard : (chkB && !boundaryB prev cs.head?) = false := by
    cases hc : chkB with
    | false => rfl
    | true => rw [hbS hc]; rfl
  have hdropL : cs.drop (cs.takeWhile isLocalChar).length
      = '@' :: (d ++ '.' :: (t ++ rest)) := by
    rw [htw]
    conv_lhs => rw [hcs2]
    exact List.drop_left _ _
  have hat : (cs.drop (cs.takeWhile isLocalChar).length).head? = some '@' := by
    rw [hdropL]; rfl
  have hrest2 : cs.drop ((cs.takeWhile isLocalChar).length + 1)
      = d ++ '.' :: (t ++ rest) := by
    rw [htw]
    conv_lhs => rw [hcs2]
    rw [show l ++ '@' :: (d ++ '.' :: (t ++ rest))
        = (l ++ ['@']) ++ (d ++ '.' :: (t ++ rest)) by simp]
    exact List.drop_left' (by simp)
  simp only [emailMatchAt]
  rw [if_neg hlen0, if_neg (by rw [hguard]; simp), if_pos hat, hrest2]
  cases hdt : domTry tldP chkB (d ++ '.' :: (t ++ rest))
      (domRun (d ++ '.' :: (t ++ rest))) with
  | some tail => simp
  | none =>
    exfalso
    have hdlen : 1 ≤ d.length := by
      have := List.length_pos.mpr hdne
      omega
    have hdot : (d ++ '.' :: (t ++ rest))[d.length]? = some '.' := by
      rw [List.getElem?_append_right (le_refl _)]
      simp
    have hdd := domTry_none tldP chkB _ _ hdt d.length hdlen
      (run_le_of_prefix_all isDomainChar d ('.' :: (t ++ rest)) hdall) hdot
    have hr3 : (d ++ '.' :: (t ++ rest)).drop (d.length + 1) = t ++ rest := by
      rw [show d ++ '.' :: (t ++ rest) = (d ++ ['.']) ++ (t ++ rest) by simp]
      exact List.drop_left' (by simp)
    rw [hr3] at hdd
    have hT := tldTry_none chkB (t ++ rest) _ hdd t.length ht2
      (run_le_of_prefix_all tldP t rest htall)
    have htne : t ≠ [] := by
      intro he
      rw [he] at ht2
      simp at ht2
    have hidx1 : (t ++ rest)[t.length - 1]? = t.getLast? := by
      rw [List.getElem?_append_left (by have := List.length_pos.mpr htne; omega),
        ← List.getLast?_eq_getElem?]
    have hidx2 : (t ++ rest)[t.length]? = rest.head? := by
      rw [List.getElem?_append_right (le_refl _)]
      simp [List.head?_eq_getElem?]
    rw [hidx1, hidx2] at hT
    cases hc : chkB with
    | false => rw [hc] at hT; simp at hT
    | true =>
      rw [hc, hbE hc] at hT
      simp at hT

/-- A failed search means the position matcher fails at every position. -/
theorem searchAux_none (tldP : Char → Bool) (chkB : Bool) :
    ∀ (cs pre : Str), emailSearchAux tldP chkB pre.getLast? cs = none →
    ∀ pre2 suf2, cs = pre2 ++ suf2 →
      emailMatchAt tldP chkB ((pre ++ pre2).getLast?) suf2 = none
  | [], pre => by
    intro h pre2 suf2 hsplit
    have h2 : suf2 = [] := (List.append_eq_nil.mp hsplit.symm).2
    subst h2
    rfl
  | c :: rest, pre => by
    intro h pre2 suf2 hsplit
    rw [emailSearchAux] at h
    cases hm : emailMatchAt tldP chkB pre.getLast? (c :: rest) with
    | some mm =>
      rw [hm] at h
      exact Option.noConfusion (show (some mm : Option Str) = none from h)
    | none =>
      rw [hm] at h
      have h2 : emailSearchAux tldP chkB ((pre ++ [c]).getLast?) rest = none := by
        rw [List.getLast?_concat]
        exact h
      cases pre2 with
      | nil =>
        have h3 : suf2 = c :: rest := by simpa using hsplit.symm
        subst h3
        simpa using hm
      | cons c2 pre2t =>
        injection hsplit with h4 h5
        subst h4
        have h6 := searchAux_none tldP chkB rest (pre ++ [c]) h2 pre2t suf2 h5
        rw [show pre ++ c :: pre2t = (pre ++ [c]) ++ pre2t by simp]
        exact h6

/-- A successful search returns a match at the leftmost matching position. -/
theorem searchAux_some (tldP : Char → Bool) (chkB : Bool) :
    ∀ (cs pre m : Str), emailSearchAux tldP chkB pre.getLast? cs = some m →
    ∃ pre2 suf2, cs = pre2 ++ suf2 ∧
      emailMatchAt tldP chkB ((pre ++ pre2).getLast?) suf2 = some m ∧
      ∀ pre3 suf3, cs = pre3 ++ suf3 → pre3.length < pre2.length →
        emailMatchAt tldP chkB ((pre ++ pre3).getLast?) suf3 = none
  | [], pre, m => by
    intro h
    rw [emailSearchAux] at h
    have hmn : emailMatchAt tldP chkB pre.getLast? ([] : Str) = none := rfl
    rw [hmn] at h
    exact Option.noConfusion (show (none : Option Str) = some m from h)
  | c :: rest, pre, m => by
    intro h
    rw [emailSearchAux] at h
    cases hm : emailMatchAt tldP chkB pre.getLast? (c :: rest) with
    | some mm =>
      rw [hm] at h
      have hmm : mm = m := Option.some.inj h
      subst hmm
      refine ⟨[], c :: rest, by simp, by simpa using hm, ?_⟩
      intro pre3 suf3 hsplit hlt
      simp at hlt
    | none =>
      rw [hm] at h
      have h2 : emailSearchAux tldP chkB ((pre ++ [c]).getLast?) rest = some m := by
        rw [List.getLast?_concat]
        exact h
      obtain ⟨pre2, suf2, hsp, hmt, hmin⟩ := searchAux_some tldP chkB rest (pre ++ [c]) m h2
      refine ⟨c :: pre2, suf2, by rw [List.cons_append, hsp], ?_, ?_⟩
      · rw [show pre ++ c :: pre2 = (pre ++ [c]) ++ pre2 by simp]
        exact hmt
      · intro pre3 suf3 hsplit hlt
        cases pre3 with
        | nil =>
          have h3 : suf3 = c :: rest := by simpa using hsplit.symm
          subst h3
          simpa using hm
        | cons c3 pre3t =>
          injection hsplit with h4 h5
          subst h4
          have hlt2 : pre3t.length < pre2.length := by
            simp at hlt
            omega
          have h6 := hmin pre3t suf3 h5 hlt2
          rw [show pre ++ c :: pre3t = (pre ++ [c]) ++ pre3t by simp]
          exact h6

/-- A failed search means the text has no email-shaped substring. -/
theorem search_none_no_shape (tldP : Char → Bool) (chkB : Bool) (cs : Str)
    (h : emailSearchAux tldP chkB none cs = none) : ¬ HasShape tldP chkB cs := by
  rintro ⟨pre, suf, m, hsplit, hdecomp⟩
  have h0 : emailSearchAux tldP chkB (([] : Str)).getLast? cs = none := h
  have h2 := searchAux_none tldP chkB cs [] h0 pre suf hsplit
  rw [List.nil_append] at h2
  exact emailMatchAt_complete tldP chkB pre.getLast? suf m hdecomp h2

/-- A successful search returns the first email-shaped substring. -/
theorem search_some_first_shape (tldP : Char → Bool) (chkB : Bool) (cs m : Str)
    (h : emailSearchAux tldP chkB none cs = some m) :
    FirstShape tldP chkB cs m := by
  have h0 : emailSearchAux tldP chkB (([] : Str)).getLast? cs = some m := h
  obtain ⟨pre2, suf2, hsp, hmt, hmin⟩ := searchAux_some tldP chkB cs [] m h0
  rw [List.nil_append] at hmt
  refine ⟨pre2, suf2, ⟨hsp, emailMatchAt_some _ _ _ _ _ hmt⟩, ?_⟩
  intro pre3 suf3 m3 hsplit hlt hdec
  have h6 := hmin pre3 suf3 hsplit hlt
  rw [List.nil_append] at h6
  exact emailMatchAt_complete tldP chkB pre3.getLast? suf3 m3 hdec h6

/-- An email-shaped match is never the sentinel (it is at least 6 characters
long). -/
theorem decomp_ne_sentinel (tldP : Char → Bool) (chkB : Bool)
    (prev : Option Char) (cs m : Str) (hd : EmailDecomp tldP chkB prev cs m) :
    m ≠ sentinel := by
  obtain ⟨l, d, t, rest, hm, -, hl, -, hdne, -, ht2, -, -, -⟩ := hd
  intro he
  rw [he] at hm
  have hlen := congrArg List.length hm
  simp [sentinel] at hlen
  have h1 := List.length_pos.mpr hl
  have h2 := List.length_pos.mpr hdne
  omega

/-- Claim C9 as amended: `extract_email` returns the sentinel exactly when
the text has no substring of the shape actually matched by the source regex
(local part of alphanumerics and `. _ % + -`, `@`, dotted domain, top-level
segment of 2 or more characters each an ASCII letter or `'|'`, delimited by
word boundaries); otherwise it returns the first (leftmost) such substring. -/
theorem C9_amended_email_shape (cs : Str) :
    (extract_email cs = sentinel ↔ ¬ HasShape isTldSrc true cs) ∧
    (extract_email cs ≠ sentinel → FirstShape isTldSrc true cs (extract_email cs)) := by
  cases hs : emailSearchAux isTldSrc true none cs with
  | none =>
    have he : extract_email cs = sentinel := by rw [extract_email, hs]; rfl
    exact ⟨⟨fun _ => search_none_no_shape _ _ _ hs, fun _ => he⟩,
      fun hne => absurd he hne⟩
  | some m =>
    have hfs := search_some_first_shape _ _ _ _ hs
    have he : extract_email cs = m := by rw [extract_email, hs]; rfl
    have hne : m ≠ sentinel := by
      obtain ⟨pre2, suf2, ⟨hsp, hdec⟩, hmin⟩ := hfs
      exact decomp_ne_sentinel _ _ _ _ _ hdec
    have hshape : HasShape isTldSrc true cs := by
      obtain ⟨pre2, suf2, hss, hmin⟩ := hfs
      exact ⟨pre2, suf2, m, hss⟩
    exact ⟨⟨fun h => absurd (he.symm.trans h) hne, fun hns => absurd hshape hns⟩,
      fun _ => he.symm ▸ hfs⟩

/-- Counterexample to claim C9: the source pattern's top-level class
`[A-Z|a-z]` also admits `'|'`, and the match is delimited by word boundaries,
neither of which the claim's shape ("2 or more letters", no boundaries)
allows.  Concretely: on "x@y.a|b" the code returns the whole text although no
substring of the claim's letters-only shape exists (even ignoring
boundaries); and on ".x@y.zz" the claim's first matching substring is the
full ".x@y.zz" while the code returns "x@y.zz". -/
theorem C9_counterexample :
    extract_email ("x@y.a|b".toList) = ("x@y.a|b".toList) ∧
    ¬ HasShape isTldLetters false ("x@y.a|b".toList) ∧
    extract_email (".x@y.zz".toList) = ("x@y.zz".toList) ∧
    ShapeSplitAt isTldLetters false (".x@y.zz".toList) [] (".x@y.zz".toList)
      (".x@y.zz".toList) ∧
    ("x@y.zz".toList) ≠ (".x@y.zz".toList) := by
  refine ⟨by decide, search_none_no_shape isTldLetters false _ (by decide),
    by decide, ?_, by decide⟩
  refine ⟨rfl, (".x".toList), ("y".toList), ("zz".toList), [],
    by decide, by decide, by decide, by decide, by decide, by decide,
    by decide, by decide, by decide, by decide⟩

/-- Witness for the amended C9 at a concrete text containing an email. -/
theorem C9_witness :
    FirstShape isTldSrc true ("a@b.cd x".toList) ("a@b.cd".toList) := by
  have h := (C9_amended_email_shape ("a@b.cd x".toList)).2 (by decide)
  exact h

end Autofill
